import Mathlib

/-!
Shallow embedding of `src/main.rs` of pykello/rust-compression, a
compression micro-benchmark driver. The embedding models:

  * `Duration` — Rust's `std::time::Duration` (seconds + nanoseconds,
    both nonnegative integers); `asSecsQ` models `as_secs_f64` over ℚ.
  * `BenchmarkResults` and `BenchmarkResults.merge` — the four parallel
    sample vectors and their concatenating merge.
  * the CLI argument loop of `main` (`parseArgsLoop` / `parseArgs`),
    including which error paths print the usage line.
  * the chunked read loop (`readChunks`), reading up to `CHUNK_SIZE`
    bytes at a time from a regular file, stopping at a zero-length read.
  * the benchmark functions `benchmark_memcpy`, `benchmark_flate2`,
    `benchmark_lz4`, `benchmark_zstd`: each does one untimed warm-up
    compress+decompress cycle, then `num_runs` timed cycles, unwrapping
    (i.e. panicking on) every codec error. External codec libraries are
    abstracted as oracles giving the compressed/decompressed lengths;
    wall-clock timing is an oracle `Nat → Duration` giving the elapsed
    time of each timed section. Rust's `.unwrap()` on a codec error is
    modelled as `Except.error Panic.panicked`, which propagates and
    aborts the computation, exactly as a Rust panic aborts the process.
  * `print_results` — the reporter: empty-results guard, ratio and
    MiB/s throughput arithmetic (f64 arithmetic modelled over ℚ, with
    `Throughput.posInf` for `f64::INFINITY`).
-/

namespace RustCompression

/-- Rust `std::time::Duration`: whole seconds and nanoseconds, both
nonnegative integers (a `Duration` can never be negative). -/
structure Duration where
  secs : Nat
  nanos : Nat
deriving Repr, DecidableEq

/-- `Duration::as_secs_f64`, over exact rationals. -/
def Duration.asSecsQ (d : Duration) : ℚ :=
  (d.secs : ℚ) + (d.nanos : ℚ) / 1000000000

/-- `struct BenchmarkResults` from `main.rs`: four parallel sample
vectors. -/
structure BenchmarkResults where
  input_sizes : List Nat
  compressed_sizes : List Nat
  compress_times : List Duration
  decompress_times : List Duration
deriving Repr, DecidableEq

/-- `BenchmarkResults::new()` — all four vectors empty. -/
def BenchmarkResults.new : BenchmarkResults := ⟨[], [], [], []⟩

/-- `BenchmarkResults::merge` — `Vec::extend` on each field, i.e.
appending `other`'s samples after `self`'s. -/
def BenchmarkResults.merge (self other : BenchmarkResults) : BenchmarkResults :=
  { input_sizes := self.input_sizes ++ other.input_sizes
    compressed_sizes := self.compressed_sizes ++ other.compressed_sizes
    compress_times := self.compress_times ++ other.compress_times
    decompress_times := self.decompress_times ++ other.decompress_times }

/-- `iter().sum::<usize>()` over a vector of sizes (a left fold, as the
Rust iterator sums). -/
def sumNat (l : List Nat) : Nat := l.foldl (· + ·) 0

/-- `iter().map(|d| d.as_secs_f64()).sum::<f64>()`, over ℚ. -/
def sumSecs (l : List Duration) : ℚ := (l.map Duration.asSecsQ).foldl (· + ·) 0

/-- An f64 throughput figure as printed by the reporter: either a finite
rational or `f64::INFINITY`.  (`NaN` is not a constructor: the reporter
can never produce it.) -/
inductive Throughput where
  | finite (q : ℚ)
  | posInf
deriving Repr, DecidableEq

/-- One line of reporter output: either the "no results" warning on
stderr, or a table row with ratio and the two throughputs. -/
inductive ReportLine where
  | noResults (name : String)
  | row (name : String) (ratio : ℚ) (cmp : Throughput) (dec : Throughput)
deriving Repr, DecidableEq

/-- `print_results` from `main.rs`: guard against any empty sample
vector, then ratio = total input / total compressed (0 when the
compressed sum is 0) and throughput = (total input / 1 MiB) / total
seconds (infinity when the total seconds are 0). -/
def print_results (name : String) (results : BenchmarkResults) : ReportLine :=
  if results.input_sizes.isEmpty
      || results.compressed_sizes.isEmpty
      || results.compress_times.isEmpty
      || results.decompress_times.isEmpty then
    .noResults name
  else
    let total_input_size : ℚ := (sumNat results.input_sizes : ℚ)
    let total_compressed_size : ℚ := (sumNat results.compressed_sizes : ℚ)
    let ratio : ℚ :=
      if 0 < total_compressed_size then total_input_size / total_compressed_size else 0
    let total_compress_time : ℚ := sumSecs results.compress_times
    let compress_throughput : Throughput :=
      if 0 < total_compress_time then
        .finite ((total_input_size / (1024 * 1024)) / total_compress_time)
      else .posInf
    let total_decompress_time : ℚ := sumSecs results.decompress_times
    let decompress_throughput : Throughput :=
      if 0 < total_decompress_time then
        .finite ((total_input_size / (1024 * 1024)) / total_decompress_time)
      else .posInf
    .row name ratio compress_throughput decompress_throughput

/-- The final table: one `print_results` line per codec, in order. -/
def print_table (codecs : List (String × BenchmarkResults)) : List ReportLine :=
  codecs.map fun p => print_results p.1 p.2

/-! ## CLI argument parsing (the loop at the top of `main`) -/

/-- The distinct CLI error exits of `main`. -/
inductive UsageError where
  | runsMissingValue
  | runsNotNumeric
  | runsZero
  | multipleFilenames
  | unknownOption (arg : String)
  | missingFilename
deriving Repr, DecidableEq

/-- Whether the corresponding `eprintln!` block in `main` prints the
`Usage: ...` line before `exit(1)`.  In the source, the non-numeric and
zero `--runs` paths print only an error line, no usage line. -/
def UsageError.printsUsage : UsageError → Bool
  | .runsMissingValue => true
  | .runsNotNumeric => false
  | .runsZero => false
  | .multipleFilenames => true
  | .unknownOption _ => true
  | .missingFilename => true

/-- Rust's `usize::MAX` on a 64-bit target. -/
def USIZE_MAX : Nat := 2 ^ 64 - 1

/-- Rust `str::starts_with(prefix)`, over the character sequences of
the two strings. -/
def strStartsWith (s p : String) : Bool := p.data.isPrefixOf s.data

/-- Rust `str::parse::<usize>()`: an optional leading `+`, then one or
more ASCII digits, with overflow above `usize::MAX` rejected. -/
def parseUsize (s : String) : Option Nat :=
  let t := if strStartsWith s "+" then s.data.drop 1 else s.data
  if t = [] then none
  else if t.all Char.isDigit then
    let n := t.foldl (fun acc c => acc * 10 + (c.toNat - 48)) 0
    if n ≤ USIZE_MAX then some n else none
  else none

/-- The `while arg_index < args.len()` loop of `main`, carrying the
`filename : Option<String>` and `num_runs` accumulators.  Each
`std::process::exit(1)` path becomes an `Except.error`. -/
def parseArgsLoop : List String → Option String → Nat → Except UsageError (String × Nat)
  | [], none, _ => .error .missingFilename
  | [], some f, n => .ok (f, n)
  | a :: rest, filename?, n =>
    if a = "--runs" then
      match rest with
      | [] => .error .runsMissingValue
      | v :: rest' =>
        match parseUsize v with
        | none => .error .runsNotNumeric
        | some m => if m = 0 then .error .runsZero else parseArgsLoop rest' filename? m
    else if strStartsWith a "--" then .error (.unknownOption a)
    else
      match filename? with
      | some _ => .error .multipleFilenames
      | none => parseArgsLoop rest (some a) n

/-- Argument parsing as `main` performs it: `args` are the command-line
arguments after the program name; `num_runs` defaults to 1 and
`filename` to `None`. -/
def parseArgs (args : List String) : Except UsageError (String × Nat) :=
  parseArgsLoop args none 1

/-- What `main` does with the command line before touching the file:
either exit with code 1 (recording whether the usage line was printed),
or proceed to benchmark `filename` with `numRuns` runs. -/
inductive ProgramOutcome where
  | usageExit (code : Nat) (usagePrinted : Bool)
  | benchmark (filename : String) (numRuns : Nat)
deriving Repr, DecidableEq

/-- The argument-handling prefix of `main`. -/
def runProgram (args : List String) : ProgramOutcome :=
  match parseArgs args with
  | .error e => .usageExit 1 e.printsUsage
  | .ok (f, n) => .benchmark f n

/-- What `main` does through argument parsing and the filesystem
calls that follow (`fs::metadata(&filename).expect(...)` and
`fs::File::open(&filename).expect(...)`): a usage exit with code 1, a
panic (`.expect` on an unopenable path — the process aborts with exit
code 101 and prints no usage message), or entry into the benchmarking
phase. -/
inductive MainOutcome where
  | usageExit (code : Nat) (usagePrinted : Bool)
  | panicked
  | benchmark (filename : String) (originalSize : Nat) (numRuns : Nat)
deriving Repr, DecidableEq

/-- `main` up to the start of the chunk loop.  `fs` is the filesystem:
for each path, the file's size in bytes, or an error when the path
cannot be opened — in which case the `.expect` at the `fs::metadata`
call panics.  Argument errors are checked first, exactly as in the
source (the parse loop and the `filename.unwrap_or_else` exit precede
the metadata call). -/
def runMain (fs : String → Except String Nat) (args : List String) : MainOutcome :=
  match parseArgs args with
  | .error e => .usageExit 1 e.printsUsage
  | .ok (f, n) =>
    match fs f with
    | .error _ => .panicked
    | .ok size => .benchmark f size n

/-! ## The chunked read loop of `main` -/

/-- `CHUNK_MB` from `main.rs`. -/
def CHUNK_MB : Nat := 256

/-- `CHUNK_SIZE` from `main.rs`: 256 MiB. -/
def CHUNK_SIZE : Nat := CHUNK_MB * 1024 * 1024

/-- The chunked read loop of `main` over the contents of a regular
file: each `file.read(&mut chunk)` on a regular file returns
`min(CHUNK_SIZE, bytes remaining)` bytes, the loop breaks on a
zero-length read, and otherwise truncates the buffer to `bytes_read`
and benchmarks it.  `readChunks data` is the list of benchmarked
chunks, in order. -/
def readChunks (data : List Nat) : List (List Nat) :=
  if data = [] then []
  else data.take CHUNK_SIZE :: readChunks (data.drop CHUNK_SIZE)
termination_by data.length
decreasing_by
  simp only [List.length_drop]
  have hpos : 0 < data.length := List.length_pos.mpr (by assumption)
  have : 0 < CHUNK_SIZE := by decide
  omega

/-! ## Benchmark functions

Each benchmark function in `main.rs` calls into an external codec
library and `.unwrap()`s the result: a library error makes the whole
process panic.  The libraries are abstracted as oracles over buffer
lengths; a panic is `Except.error Panic.panicked` and propagates. -/

/-- A Rust panic (an `.unwrap()` on an `Err`), aborting the process. -/
inductive Panic where
  | panicked
deriving Repr, DecidableEq

/-- The result of running code that may panic. -/
abbrev PResult (α : Type) := Except Panic α

/-- `.unwrap()` on a library `Result`: the value on `Ok`, a panic on
`Err`. -/
def unwrapE {α : Type} : Except String α → PResult α
  | .ok a => .ok a
  | .error _ => .error .panicked

/-- One call into a codec library, for recording the order of codec
work performed by a benchmark function. -/
inductive CodecEvent where
  | compressCall
  | decompressCall
deriving Repr, DecidableEq

/-! ### `benchmark_memcpy` -/

/-- The `for run in 0..num_runs` loop of `benchmark_memcpy`: each
iteration does one forward copy (timed as compression) and one backward
copy (timed as decompression) and pushes `len` as both the input size
and the compressed size.  `run` is the current run index (used to index
the timing oracles), `remaining` the number of runs left. -/
def memcpyRuns (len : Nat) (ct dt : Nat → Duration) :
    Nat → Nat → BenchmarkResults × List CodecEvent
  | _, 0 => (BenchmarkResults.new, [])
  | run, r + 1 =>
    let rest := memcpyRuns len ct dt (run + 1) r
    (⟨len :: rest.1.input_sizes, len :: rest.1.compressed_sizes,
      ct run :: rest.1.compress_times, dt run :: rest.1.decompress_times⟩,
     .compressCall :: .decompressCall :: rest.2)

/-- `benchmark_memcpy` from `main.rs`: one untimed warm-up copy cycle,
then `num_runs` timed copy cycles.  `len` is `data.len()`; `ct k` /
`dt k` are the wall-clock elapsed times observed for the `k`-th timed
compress / decompress section.  Returns the results together with the
sequence of copy operations performed. -/
def benchmark_memcpy (len num_runs : Nat) (ct dt : Nat → Duration) :
    BenchmarkResults × List CodecEvent :=
  let runs := memcpyRuns len ct dt 0 num_runs
  (runs.1, .compressCall :: .decompressCall :: runs.2)

/-! ### `benchmark_flate2` -/

/-- The flate2 gzip library abstracted over buffer lengths:
`compressLen n` is the length of the gzip encoding of the `n`-byte
chunk (or an error), `decompressLen m` the length written by the gzip
decoder fed the `m`-byte compressed buffer (or an error). -/
structure GzLib where
  compressLen : Nat → Except String Nat
  decompressLen : Nat → Except String Nat

/-- The `for run in 0..num_runs` loop of `benchmark_flate2`: per run,
encode (timed, `.unwrap()` on error, push input size / compressed size /
compress time), then decode (timed, `.unwrap()` on error, push
decompress time).  The decoded length `decompressed_len` is read and
then discarded (`black_box`), never compared with anything. -/
def flate2Runs (gz : GzLib) (dataLen : Nat) (ct dt : Nat → Duration) :
    Nat → Nat → PResult BenchmarkResults
  | _, 0 => .ok BenchmarkResults.new
  | run, r + 1 => do
    let compressed_len ← unwrapE (gz.compressLen dataLen)
    let decompressed_len ← unwrapE (gz.decompressLen compressed_len)
    let _ := decompressed_len
    let rest ← flate2Runs gz dataLen ct dt (run + 1) r
    .ok ⟨dataLen :: rest.input_sizes, compressed_len :: rest.compressed_sizes,
         ct run :: rest.compress_times, dt run :: rest.decompress_times⟩

/-- `benchmark_flate2` from `main.rs`: one untimed warm-up
encode+decode cycle (results unwrapped and discarded), then the timed
run loop. -/
def benchmark_flate2 (gz : GzLib) (dataLen num_runs : Nat)
    (ct dt : Nat → Duration) : PResult BenchmarkResults := do
  let warm_compressed ← unwrapE (gz.compressLen dataLen)
  let _ ← unwrapE (gz.decompressLen warm_compressed)
  flate2Runs gz dataLen ct dt 0 num_runs

/-! ### `benchmark_lz4` -/

/-- Modelled from the spec: "One codec (block-mode LZ4) enforces a
maximum input size (2^31−1 bytes)" — the cap the lz4 crate's block API
places on its input (the crate itself is an external dependency, absent
from `src/`). -/
def LZ4_MAX_INPUT : Nat := 2 ^ 31 - 1

/-- The lz4 block library abstracted over lengths: `innerLen n` is the
compressed length the codec produces for the `n`-byte chunk when the
input is within the cap; `decompressLen (m, expected, cap)` models
`decompress_to_buffer` given the `m`-byte compressed input, the
expected uncompressed size hint and the destination capacity. -/
structure LZ4Lib where
  innerLen : Nat → Nat
  decompressLen : Nat → Int → Nat → Except String Nat

/-- Modelled from the spec: `lz4::block::compress_bound` returns no
bound (`None`) for inputs above the cap; within the cap it returns a
worst-case-expansion bound that is at least the input length. -/
def lz4_compress_bound (len : Nat) : Option Nat :=
  if LZ4_MAX_INPUT < len then none else some (len + len / 255 + 16)

/-- Modelled from the spec: `lz4::block::compress_to_buffer` fails on
inputs above the 2^31−1 cap (and on a too-small destination); otherwise
it writes `innerLen` bytes. -/
def lz4_compress_to_buffer (lib : LZ4Lib) (srcLen dstCap : Nat) : Except String Nat :=
  if LZ4_MAX_INPUT < srcLen then .error "compression input size too large"
  else if dstCap < lib.innerLen srcLen then .error "output buffer too small"
  else .ok (lib.innerLen srcLen)

/-- The run loop of `benchmark_lz4`: per run, `compress_to_buffer`
(timed, unwrapped, sizes pushed), then `decompress_to_buffer` with
`Some(original_size as i32)` into the `original_size`-byte buffer
(timed, unwrapped, length discarded). -/
def lz4Runs (lib : LZ4Lib) (dataLen original_size max_len : Nat)
    (ct dt : Nat → Duration) : Nat → Nat → PResult BenchmarkResults
  | _, 0 => .ok BenchmarkResults.new
  | run, r + 1 => do
    let compressed_len ← unwrapE (lz4_compress_to_buffer lib dataLen max_len)
    let _ ← unwrapE (lib.decompressLen compressed_len (original_size : Int) original_size)
    let rest ← lz4Runs lib dataLen original_size max_len ct dt (run + 1) r
    .ok ⟨dataLen :: rest.input_sizes, compressed_len :: rest.compressed_sizes,
         ct run :: rest.compress_times, dt run :: rest.decompress_times⟩

/-- `benchmark_lz4` from `main.rs`: destination buffer sized
`compress_bound(data.len()).unwrap_or(data.len())`, one untimed warm-up
compress+decompress cycle with every library result `.unwrap()`ed, then
the timed run loop. -/
def benchmark_lz4 (lib : LZ4Lib) (dataLen original_size num_runs : Nat)
    (ct dt : Nat → Duration) : PResult BenchmarkResults := do
  let max_len := (lz4_compress_bound dataLen).getD dataLen
  let warm_compressed ← unwrapE (lz4_compress_to_buffer lib dataLen max_len)
  let _ ← unwrapE (lib.decompressLen warm_compressed (original_size : Int) original_size)
  lz4Runs lib dataLen original_size max_len ct dt 0 num_runs

/-! ### `benchmark_zstd` -/

/-- The zstd library abstracted over lengths: `compress_bound` is
`zstd::zstd_safe::compress_bound`; `compressLen level (n, cap)` models
`zstd::bulk::compress_to_buffer` and `decompressLen (m, cap)` models
`zstd::bulk::decompress_to_buffer`, each returning the number of bytes
written or an error. -/
structure ZstdLib where
  compress_bound : Nat → Nat
  compressLen : Int → Nat → Nat → Except String Nat
  decompressLen : Nat → Nat → Except String Nat

/-- The run loop of `benchmark_zstd`: per run, compress (timed,
unwrapped, sizes pushed), then decompress into the
`original_size`-capacity buffer (timed, unwrapped, length discarded). -/
def zstdRuns (lib : ZstdLib) (level : Int) (dataLen original_size max_len : Nat)
    (ct dt : Nat → Duration) : Nat → Nat → PResult (BenchmarkResults × List CodecEvent)
  | _, 0 => .ok (BenchmarkResults.new, [])
  | run, r + 1 => do
    let compressed_len ← unwrapE (lib.compressLen level dataLen max_len)
    let _ ← unwrapE (lib.decompressLen compressed_len original_size)
    let (rest, tr) ← zstdRuns lib level dataLen original_size max_len ct dt (run + 1) r
    .ok (⟨dataLen :: rest.input_sizes, compressed_len :: rest.compressed_sizes,
          ct run :: rest.compress_times, dt run :: rest.decompress_times⟩,
         .compressCall :: .decompressCall :: tr)

/-- `benchmark_zstd` from `main.rs`: destination buffer sized
`compress_bound(data.len())`, one untimed warm-up compress+decompress
cycle (unwrapped, discarded), then the timed run loop.  Also returns
the sequence of codec calls performed. -/
def benchmark_zstd (lib : ZstdLib) (level : Int) (dataLen original_size num_runs : Nat)
    (ct dt : Nat → Duration) : PResult (BenchmarkResults × List CodecEvent) := do
  let max_len := lib.compress_bound dataLen
  let warm_compressed ← unwrapE (lib.compressLen level dataLen max_len)
  let _ ← unwrapE (lib.decompressLen warm_compressed original_size)
  let (runs, tr) ← zstdRuns lib level dataLen original_size max_len ct dt 0 num_runs
  .ok (runs, .compressCall :: .decompressCall :: tr)

/-! ### The per-chunk codec loop of `main`

`main` benchmarks the codecs in a fixed order on each chunk, merging
each result as soon as it is produced.  We model the loop restricted to
the four codecs embedded above (memcpy, flate2, lz4, zstd level 1 —
the others are structurally identical); any panic inside one benchmark
aborts the whole process, so later codecs are not reached. -/

/-- The four accumulated result sets for one chunk, in benchmarking
order. -/
structure ChunkResults where
  memcpy : BenchmarkResults
  flate2 : BenchmarkResults
  lz4 : BenchmarkResults
  zstd : BenchmarkResults
deriving Repr, DecidableEq

/-- One iteration of the chunk loop in `main`: benchmark each codec on
the chunk, in source order; the first panic propagates and the
remaining codecs never run. -/
def processChunk (gz : GzLib) (l4 : LZ4Lib) (zs : ZstdLib)
    (chunkLen num_runs : Nat) (ct dt : Nat → Duration) : PResult ChunkResults := do
  let m := benchmark_memcpy chunkLen num_runs ct dt
  let f ← benchmark_flate2 gz chunkLen num_runs ct dt
  let l ← benchmark_lz4 l4 chunkLen chunkLen num_runs ct dt
  let z ← benchmark_zstd zs 1 chunkLen chunkLen num_runs ct dt
  .ok ⟨m.1, f, l, z.1⟩

/-! ## Helper lemmas -/

theorem foldl_add_init {M : Type} [AddCommMonoid M] (l : List M) (n : M) :
    l.foldl (· + ·) n = n + l.foldl (· + ·) 0 := by
  induction l generalizing n with
  | nil => simp
  | cons x xs ih =>
    simp only [List.foldl_cons]
    rw [ih (n + x), ih (0 + x), zero_add, add_assoc]

theorem sumNat_nil : sumNat [] = 0 := rfl

theorem sumNat_cons (x : Nat) (l : List Nat) : sumNat (x :: l) = x + sumNat l := by
  simp only [sumNat, List.foldl_cons]
  rw [foldl_add_init l (0 + x), zero_add]

theorem sumNat_append (l1 l2 : List Nat) : sumNat (l1 ++ l2) = sumNat l1 + sumNat l2 := by
  simp only [sumNat, List.foldl_append]
  rw [foldl_add_init l2 (l1.foldl (· + ·) 0)]

theorem sumSecs_nil : sumSecs [] = 0 := rfl

theorem sumSecs_cons (d : Duration) (l : List Duration) :
    sumSecs (d :: l) = d.asSecsQ + sumSecs l := by
  simp only [sumSecs, List.map_cons, List.foldl_cons]
  rw [foldl_add_init (l.map Duration.asSecsQ) (0 + d.asSecsQ), zero_add]

theorem sumSecs_append (l1 l2 : List Duration) :
    sumSecs (l1 ++ l2) = sumSecs l1 + sumSecs l2 := by
  simp only [sumSecs, List.map_append, List.foldl_append]
  rw [foldl_add_init (l2.map Duration.asSecsQ) ((l1.map Duration.asSecsQ).foldl (· + ·) 0)]

theorem Duration.asSecsQ_nonneg (d : Duration) : 0 ≤ d.asSecsQ := by
  have h1 : (0 : ℚ) ≤ (d.secs : ℚ) := Nat.cast_nonneg _
  have h2 : (0 : ℚ) ≤ (d.nanos : ℚ) / 1000000000 :=
    div_nonneg (Nat.cast_nonneg _) (by norm_num)
  simpa [Duration.asSecsQ] using add_nonneg h1 h2

theorem sumSecs_nonneg (l : List Duration) : 0 ≤ sumSecs l := by
  induction l with
  | nil => simp [sumSecs_nil]
  | cons d l ih => rw [sumSecs_cons]; exact add_nonneg (Duration.asSecsQ_nonneg d) ih

/-! ## Claims -/

/-- C5: Merging `BenchmarkResults` is order-independent with respect to
the reported totals — the sums of input sizes, compressed sizes,
compress times and decompress times after merging `a` then `b` equal
those after merging `b` then `a`; merging is associative; and merging
an empty `BenchmarkResults` (in either role) leaves everything
unchanged. -/
theorem merge_totals_order_independent (a b c : BenchmarkResults) :
    (sumNat (a.merge b).input_sizes = sumNat (b.merge a).input_sizes ∧
     sumNat (a.merge b).compressed_sizes = sumNat (b.merge a).compressed_sizes ∧
     sumSecs (a.merge b).compress_times = sumSecs (b.merge a).compress_times ∧
     sumSecs (a.merge b).decompress_times = sumSecs (b.merge a).decompress_times) ∧
    (a.merge b).merge c = a.merge (b.merge c) ∧
    a.merge BenchmarkResults.new = a ∧
    BenchmarkResults.new.merge a = a := by
  refine ⟨⟨?_, ?_, ?_, ?_⟩, ?_, ?_, ?_⟩ <;>
    simp [BenchmarkResults.merge, BenchmarkResults.new, sumNat_append, sumSecs_append,
      List.append_assoc, Nat.add_comm, add_comm]

/-- C8: If any of a codec's sample vectors is empty, the reporter
prints the "no results" warning for that codec instead of a table row,
and the lines printed for the other codecs are exactly what they would
be on their own. -/
theorem print_results_empty_guard :
    (∀ name r, (r.input_sizes = [] ∨ r.compressed_sizes = [] ∨
        r.compress_times = [] ∨ r.decompress_times = []) →
      print_results name r = .noResults name) ∧
    (∀ xs name r ys,
      print_table (xs ++ (name, r) :: ys) =
        print_table xs ++ print_results name r :: print_table ys) := by
  constructor
  · intro name r h
    rcases h with h | h | h | h <;> simp [print_results, h]
  · intro xs name r ys
    simp [print_table]

/-- Witness for C8: the empty `BenchmarkResults` produces the warning
line. -/
theorem print_results_empty_guard_witness :
    print_results "lz4" BenchmarkResults.new = .noResults "lz4" :=
  print_results_empty_guard.1 "lz4" BenchmarkResults.new (Or.inl rfl)

/-- The reporter's row, in closed form, for nonempty results: the
ratio and throughput branches of `print_results` resolved against the
sign facts for the sums. -/
theorem print_results_eq_row (name : String) (r : BenchmarkResults)
    (h1 : r.input_sizes ≠ []) (h2 : r.compressed_sizes ≠ [])
    (h3 : r.compress_times ≠ []) (h4 : r.decompress_times ≠ []) :
    print_results name r = .row name
      (if sumNat r.compressed_sizes = 0 then 0
       else (sumNat r.input_sizes : ℚ) / (sumNat r.compressed_sizes : ℚ))
      (if sumSecs r.compress_times = 0 then .posInf
       else .finite (((sumNat r.input_sizes : ℚ) / 1048576) / sumSecs r.compress_times))
      (if sumSecs r.decompress_times = 0 then .posInf
       else .finite (((sumNat r.input_sizes : ℚ) / 1048576) / sumSecs r.decompress_times)) := by
  have g1 : r.input_sizes.isEmpty = false := by simp [h1]
  have g2 : r.compressed_sizes.isEmpty = false := by simp [h2]
  have g3 : r.compress_times.isEmpty = false := by simp [h3]
  have g4 : r.decompress_times.isEmpty = false := by simp [h4]
  simp only [print_results, g1, g2, g3, g4, Bool.false_or, Bool.or_self, Bool.false_eq_true,
    if_false, ReportLine.row.injEq, true_and]
  refine ⟨?_, ?_, ?_⟩
  · by_cases hc : sumNat r.compressed_sizes = 0
    · simp [hc]
    · have hpos : (0 : ℚ) < (sumNat r.compressed_sizes : ℚ) := by
        exact_mod_cast Nat.pos_of_ne_zero hc
      simp [hc, hpos]
  · by_cases ht : sumSecs r.compress_times = 0
    · simp [ht]
    · have hpos : (0 : ℚ) < sumSecs r.compress_times :=
        lt_of_le_of_ne (sumSecs_nonneg _) (Ne.symm ht)
      simp only [ht, hpos, if_true, if_false]
      norm_num
  · by_cases ht : sumSecs r.decompress_times = 0
    · simp [ht]
    · have hpos : (0 : ℚ) < sumSecs r.decompress_times :=
        lt_of_le_of_ne (sumSecs_nonneg _) (Ne.symm ht)
      simp only [ht, hpos, if_true, if_false]
      norm_num

/-- C4: For every non-empty aggregated result, the reporter computes
ratio = total input bytes / total compressed bytes (0 when the
compressed-byte sum is 0), and each throughput =
(total input bytes / 1,048,576) / total seconds of the phase (positive
infinity when that total is 0). -/
theorem reporter_formulas (name : String) (r : BenchmarkResults)
    (h1 : r.input_sizes ≠ []) (h2 : r.compressed_sizes ≠ [])
    (h3 : r.compress_times ≠ []) (h4 : r.decompress_times ≠ []) :
    print_results name r = .row name
      (if sumNat r.compressed_sizes = 0 then 0
       else (sumNat r.input_sizes : ℚ) / (sumNat r.compressed_sizes : ℚ))
      (if sumSecs r.compress_times = 0 then .posInf
       else .finite (((sumNat r.input_sizes : ℚ) / 1048576) / sumSecs r.compress_times))
      (if sumSecs r.decompress_times = 0 then .posInf
       else .finite (((sumNat r.input_sizes : ℚ) / 1048576) / sumSecs r.decompress_times)) :=
  print_results_eq_row name r h1 h2 h3 h4

/-- Witness for C4: a one-sample result, with the formulas
instantiated. -/
theorem reporter_formulas_witness :
    print_results "flate2 (gzip)" ⟨[3], [2], [⟨1, 0⟩], [⟨2, 0⟩]⟩ =
      .row "flate2 (gzip)"
        (if sumNat [2] = 0 then 0 else (sumNat [3] : ℚ) / (sumNat [2] : ℚ))
        (if sumSecs [⟨1, 0⟩] = 0 then .posInf
         else .finite (((sumNat [3] : ℚ) / 1048576) / sumSecs [⟨1, 0⟩]))
        (if sumSecs [⟨2, 0⟩] = 0 then .posInf
         else .finite (((sumNat [3] : ℚ) / 1048576) / sumSecs [⟨2, 0⟩])) :=
  reporter_formulas "flate2 (gzip)" ⟨[3], [2], [⟨1, 0⟩], [⟨2, 0⟩]⟩
    (by decide) (by decide) (by decide) (by decide)

/-- C9: every table row the reporter prints has ratio ≥ 0 (equal to
total input / total compressed exactly when the compressed sum is
positive), and each throughput is either positive infinity or a finite
nonnegative value — never negative, and `NaN` is not even
representable in the reporter's output type. -/
theorem reporter_row_nonneg (name : String) (r : BenchmarkResults) (rq : ℚ)
    (cthr dthr : Throughput)
    (h : print_results name r = .row name rq cthr dthr) :
    0 ≤ rq ∧
    (0 < sumNat r.compressed_sizes →
      rq = (sumNat r.input_sizes : ℚ) / (sumNat r.compressed_sizes : ℚ)) ∧
    (cthr = .posInf ∨ ∃ q, cthr = .finite q ∧ 0 ≤ q) ∧
    (dthr = .posInf ∨ ∃ q, dthr = .finite q ∧ 0 ≤ q) := by
  rw [print_results] at h
  split at h
  · exact absurd h (by simp)
  · simp only [ReportLine.row.injEq, true_and] at h
    obtain ⟨hr, hc, hd⟩ := h
    refine ⟨?_, ?_, ?_, ?_⟩
    · rw [← hr]
      split
      · exact div_nonneg (Nat.cast_nonneg _) (by positivity)
      · exact le_refl 0
    · intro hpos
      rw [← hr, if_pos (by exact_mod_cast hpos)]
    · rw [← hc]
      split
      · exact Or.inr ⟨_, rfl,
          div_nonneg (div_nonneg (Nat.cast_nonneg _) (by norm_num)) (by positivity)⟩
      · exact Or.inl rfl
    · rw [← hd]
      split
      · exact Or.inr ⟨_, rfl,
          div_nonneg (div_nonneg (Nat.cast_nonneg _) (by norm_num)) (by positivity)⟩
      · exact Or.inl rfl

/-- Witness for C9: the ratio of a concrete printed row is
nonnegative. -/
theorem reporter_row_nonneg_witness :
    0 ≤ (if sumNat [2] = 0 then (0 : ℚ) else (sumNat [3] : ℚ) / (sumNat [2] : ℚ)) := by
  have h := print_results_eq_row "x" ⟨[3], [2], [⟨1, 0⟩], [⟨0, 5⟩]⟩
    (by decide) (by decide) (by decide) (by decide)
  exact (reporter_row_nonneg "x" _ _ _ _ h).1

/-! ### Run-loop characterizations -/

theorem pbind_ok {α β : Type} (a : α) (f : α → PResult β) :
    (Except.ok a : PResult α) >>= f = f a := rfl

theorem pbind_error {α β : Type} (p : Panic) (f : α → PResult β) :
    (Except.error p : PResult α) >>= f = .error p := rfl

/-- `memcpyRuns` in closed form: `r` runs starting at run index `run`
record `r` copies of the chunk length in both size vectors, the timer
readings `run, run+1, …`, and `r` compress/decompress call pairs. -/
theorem memcpyRuns_eq (len : Nat) (ct dt : Nat → Duration) :
    ∀ r run, memcpyRuns len ct dt run r =
      (⟨List.replicate r len, List.replicate r len,
        (List.range' run r).map ct, (List.range' run r).map dt⟩,
       (List.replicate r [CodecEvent.compressCall, CodecEvent.decompressCall]).flatten) := by
  intro r
  induction r with
  | zero => intro run; simp [memcpyRuns, BenchmarkResults.new, List.range']
  | succ r ih => intro run; simp [memcpyRuns, ih (run + 1), List.range', List.replicate_succ]

theorem benchmark_memcpy_results (len N : Nat) (ct dt : Nat → Duration) :
    (benchmark_memcpy len N ct dt).1 =
      ⟨List.replicate N len, List.replicate N len,
       (List.range' 0 N).map ct, (List.range' 0 N).map dt⟩ := by
  simp [benchmark_memcpy, memcpyRuns_eq]

/-- A successful `zstdRuns` call of `r` runs yields `r` samples in each
vector and `r` compress/decompress call pairs. -/
theorem zstdRuns_ok (lib : ZstdLib) (level : Int) (dataLen os max_len : Nat)
    (ct dt : Nat → Duration) :
    ∀ r run res tr,
      zstdRuns lib level dataLen os max_len ct dt run r = .ok (res, tr) →
      (res.input_sizes.length = r ∧ res.compressed_sizes.length = r ∧
       res.compress_times.length = r ∧ res.decompress_times.length = r) ∧
      tr = (List.replicate r [CodecEvent.compressCall, CodecEvent.decompressCall]).flatten := by
  intro r
  induction r with
  | zero =>
    intro run res tr h
    simp only [zstdRuns, Except.ok.injEq, Prod.mk.injEq] at h
    obtain ⟨h1, h2⟩ := h
    subst h1; subst h2
    simp [BenchmarkResults.new]
  | succ r ih =>
    intro run res tr h
    simp only [zstdRuns] at h
    cases hcl : lib.compressLen level dataLen max_len with
    | error e => rw [hcl] at h; simp [unwrapE, pbind_error] at h
    | ok clen =>
      rw [hcl] at h
      simp only [unwrapE, pbind_ok] at h
      cases hdl : lib.decompressLen clen os with
      | error e => rw [hdl] at h; simp [unwrapE, pbind_error] at h
      | ok dlen =>
        rw [hdl] at h
        simp only [unwrapE, pbind_ok] at h
        cases hrec : zstdRuns lib level dataLen os max_len ct dt (run + 1) r with
        | error e => rw [hrec] at h; simp [pbind_error] at h
        | ok p =>
          obtain ⟨res', tr'⟩ := p
          rw [hrec] at h
          simp only [pbind_ok, Except.ok.injEq, Prod.mk.injEq] at h
          obtain ⟨h1, h2⟩ := h
          subst h1; subst h2
          obtain ⟨⟨l1, l2, l3, l4⟩, htr⟩ := ih (run + 1) res' tr' hrec
          simp [l1, l2, l3, l4, htr, List.replicate_succ]

/-- C6: for every chunk and `num_runs = N ≥ 1`, the benchmark performs
exactly one warm-up compress+decompress cycle (whose timings are never
recorded — the warm-up section is not even timed) followed by `N` timed
cycles, and the four result vectors each hold exactly `N` entries.
Stated for the two cited benchmark functions: `benchmark_memcpy`
(always succeeds) and `benchmark_zstd` (when its codec calls succeed):
the call trace is `N + 1` compress/decompress pairs, the vectors have
length `N`. -/
theorem warmup_once_then_n_runs :
    (∀ len N ct dt, 1 ≤ N →
      ((benchmark_memcpy len N ct dt).1.input_sizes.length = N ∧
       (benchmark_memcpy len N ct dt).1.compressed_sizes.length = N ∧
       (benchmark_memcpy len N ct dt).1.compress_times.length = N ∧
       (benchmark_memcpy len N ct dt).1.decompress_times.length = N) ∧
      (benchmark_memcpy len N ct dt).2 =
        (List.replicate (N + 1) [CodecEvent.compressCall, CodecEvent.decompressCall]).flatten) ∧
    (∀ lib level dataLen os N ct dt res tr, 1 ≤ N →
      benchmark_zstd lib level dataLen os N ct dt = .ok (res, tr) →
      (res.input_sizes.length = N ∧ res.compressed_sizes.length = N ∧
       res.compress_times.length = N ∧ res.decompress_times.length = N) ∧
      tr = (List.replicate (N + 1) [CodecEvent.compressCall, CodecEvent.decompressCall]).flatten) := by
  constructor
  · intro len N ct dt _
    constructor
    · simp [benchmark_memcpy_results]
    · simp [benchmark_memcpy, memcpyRuns_eq, List.replicate_succ]
  · intro lib level dataLen os N ct dt res tr _ h
    simp only [benchmark_zstd] at h
    cases hcl : lib.compressLen level dataLen (lib.compress_bound dataLen) with
    | error e => rw [hcl] at h; simp [unwrapE, pbind_error] at h
    | ok clen =>
      rw [hcl] at h
      simp only [unwrapE, pbind_ok] at h
      cases hdl : lib.decompressLen clen os with
      | error e => rw [hdl] at h; simp [unwrapE, pbind_error] at h
      | ok dlen =>
        rw [hdl] at h
        simp only [unwrapE, pbind_ok] at h
        cases hrec : zstdRuns lib level dataLen os (lib.compress_bound dataLen) ct dt 0 N with
        | error e => rw [hrec] at h; simp [pbind_error] at h
        | ok p =>
          obtain ⟨res', tr'⟩ := p
          rw [hrec] at h
          simp only [pbind_ok, Except.ok.injEq, Prod.mk.injEq] at h
          obtain ⟨h1, h2⟩ := h
          subst h1; subst h2
          obtain ⟨hl, htr⟩ := zstdRuns_ok lib level dataLen os _ ct dt N 0 res' tr' hrec
          exact ⟨hl, by simp [htr, List.replicate_succ]⟩

/-- Witness for C6: two timed memcpy runs after one warm-up, and one
timed zstd run after one warm-up. -/
theorem warmup_once_then_n_runs_witness :
    (benchmark_memcpy 5 2 (fun _ => ⟨0, 0⟩) (fun _ => ⟨0, 0⟩)).2 =
      (List.replicate 3 [CodecEvent.compressCall, CodecEvent.decompressCall]).flatten ∧
    ([CodecEvent.compressCall, CodecEvent.decompressCall,
      CodecEvent.compressCall, CodecEvent.decompressCall] : List CodecEvent) =
      (List.replicate 2 [CodecEvent.compressCall, CodecEvent.decompressCall]).flatten := by
  constructor
  · exact (warmup_once_then_n_runs.1 5 2 (fun _ => ⟨0, 0⟩) (fun _ => ⟨0, 0⟩) (by decide)).2
  · exact (warmup_once_then_n_runs.2 ⟨fun n => n + 64, fun _ n _ => .ok n, fun _ _ => .ok 0⟩
      1 3 3 1 (fun _ => ⟨0, 0⟩) (fun _ => ⟨0, 0⟩)
      ⟨[3], [3], [⟨0, 0⟩], [⟨0, 0⟩]⟩
      [CodecEvent.compressCall, CodecEvent.decompressCall,
       CodecEvent.compressCall, CodecEvent.decompressCall]
      (by decide) rfl).2

/-! ### The memcpy pseudo-codec's aggregated ratio (C10) -/

/-- The accumulation `memcpy_results.merge(benchmark_memcpy(&chunk,
num_runs))` performed by `main`'s chunk loop, over the chunk lengths of
the file. -/
def memcpyAggregate (chunkLens : List Nat) (num_runs : Nat)
    (ct dt : Nat → Duration) : BenchmarkResults :=
  chunkLens.foldl
    (fun acc len => acc.merge (benchmark_memcpy len num_runs ct dt).1)
    BenchmarkResults.new

theorem memcpyAggregate_fold (N : Nat) (ct dt : Nat → Duration) :
    ∀ (ls : List Nat) (acc : BenchmarkResults),
      ls.foldl (fun acc len => acc.merge (benchmark_memcpy len N ct dt).1) acc =
        ⟨acc.input_sizes ++ (ls.map fun l => List.replicate N l).flatten,
         acc.compressed_sizes ++ (ls.map fun l => List.replicate N l).flatten,
         acc.compress_times ++ (ls.map fun _ => (List.range' 0 N).map ct).flatten,
         acc.decompress_times ++ (ls.map fun _ => (List.range' 0 N).map dt).flatten⟩ := by
  intro ls
  induction ls with
  | nil => intro acc; simp
  | cons l ls ih =>
    intro acc
    rw [List.foldl_cons, ih]
    simp [BenchmarkResults.merge, benchmark_memcpy_results, List.append_assoc]

theorem sumNat_replicate (N l : Nat) : sumNat (List.replicate N l) = N * l := by
  induction N with
  | zero => simp [sumNat_nil]
  | succ N ih => rw [List.replicate_succ, sumNat_cons, ih]; ring

theorem sumNat_pos_of_mem {l : Nat} {ls : List Nat} (hm : l ∈ ls) (hl : 0 < l) :
    0 < sumNat ls := by
  induction ls with
  | nil => cases hm
  | cons x xs ih =>
    rw [sumNat_cons]
    rcases List.mem_cons.mp hm with h | h
    · omega
    · have := ih h; omega

theorem sumNat_flatten_replicate (N : Nat) (ls : List Nat) :
    sumNat ((ls.map fun l => List.replicate N l).flatten) = N * sumNat ls := by
  induction ls with
  | nil => simp [sumNat_nil]
  | cons l ls ih =>
    simp only [List.map_cons, List.flatten_cons, sumNat_append, sumNat_cons, ih,
      sumNat_replicate]
    ring

/-- C10: every sample recorded by the memcpy pseudo-codec has
`compressed_size` equal to `input_size` (the chunk length), and as soon
as at least one non-empty chunk was processed (with `num_runs ≥ 1`),
the memcpy row's aggregated ratio is exactly 1. -/
theorem memcpy_ratio_exactly_one :
    (∀ len N ct dt,
      (benchmark_memcpy len N ct dt).1.compressed_sizes =
        (benchmark_memcpy len N ct dt).1.input_sizes ∧
      (benchmark_memcpy len N ct dt).1.input_sizes = List.replicate N len) ∧
    (∀ chunkLens N ct dt name, 1 ≤ N → (∃ l, l ∈ chunkLens ∧ 0 < l) →
      ∃ cthr dthr,
        print_results name (memcpyAggregate chunkLens N ct dt) = .row name 1 cthr dthr) := by
  constructor
  · intro len N ct dt
    rw [benchmark_memcpy_results]
    exact ⟨rfl, rfl⟩
  · intro chunkLens N ct dt name hN hex
    obtain ⟨l, hm, hl⟩ := hex
    have hA : memcpyAggregate chunkLens N ct dt =
        ⟨(chunkLens.map fun l => List.replicate N l).flatten,
         (chunkLens.map fun l => List.replicate N l).flatten,
         (chunkLens.map fun _ => (List.range' 0 N).map ct).flatten,
         (chunkLens.map fun _ => (List.range' 0 N).map dt).flatten⟩ := by
      rw [memcpyAggregate, memcpyAggregate_fold]
      simp [BenchmarkResults.new]
    have hsum : 0 < sumNat ((chunkLens.map fun l => List.replicate N l).flatten) := by
      rw [sumNat_flatten_replicate]
      exact Nat.mul_pos hN (sumNat_pos_of_mem hm hl)
    have hne : (chunkLens.map fun l => List.replicate N l).flatten ≠ [] := by
      intro hcontra
      rw [hcontra] at hsum
      simp [sumNat_nil] at hsum
    have hlsne : chunkLens ≠ [] := by
      intro hcontra
      subst hcontra
      cases hm
    have htne : ∀ f : Nat → Duration,
        (chunkLens.map fun _ => (List.range' 0 N).map f).flatten ≠ [] := by
      intro f hcontra
      rw [List.flatten_eq_nil_iff] at hcontra
      obtain ⟨l0, hl0⟩ := List.exists_mem_of_ne_nil chunkLens hlsne
      have : (List.range' 0 N).map f = [] :=
        hcontra _ (List.mem_map.mpr ⟨l0, hl0, rfl⟩)
      have hlen := congrArg List.length this
      simp [List.length_range'] at hlen
      omega
    have hone : (if sumNat ((chunkLens.map fun l => List.replicate N l).flatten) = 0 then (0 : ℚ)
        else (sumNat ((chunkLens.map fun l => List.replicate N l).flatten) : ℚ) /
          (sumNat ((chunkLens.map fun l => List.replicate N l).flatten) : ℚ)) = 1 := by
      rw [if_neg (Nat.pos_iff_ne_zero.mp hsum)]
      exact div_self (by exact_mod_cast Nat.pos_iff_ne_zero.mp hsum)
    rw [hA, print_results_eq_row _ _ hne hne (htne ct) (htne dt), hone]
    exact ⟨_, _, rfl⟩

/-- Witness for C10: one 3-byte chunk, one run — the memcpy row's ratio
is exactly 1. -/
theorem memcpy_ratio_exactly_one_witness :
    ∃ cthr dthr,
      print_results "memcpy"
        (memcpyAggregate [3] 1 (fun _ => ⟨0, 0⟩) (fun _ => ⟨0, 0⟩)) =
        .row "memcpy" 1 cthr dthr :=
  memcpy_ratio_exactly_one.2 [3] 1 (fun _ => ⟨0, 0⟩) (fun _ => ⟨0, 0⟩) "memcpy"
    (by decide) ⟨3, by decide, by decide⟩

/-! ### The input loader (C7) -/

/-- C7: the loader yields a finite sequence of non-empty chunks, each
of at most `CHUNK_SIZE` bytes; every chunk except possibly the final
one is exactly `CHUNK_SIZE` bytes; and the sequence is empty exactly
when the file has no bytes left (the zero-length read). -/
theorem readChunks_spec : ∀ data : List Nat,
    (∀ c ∈ readChunks data, c ≠ [] ∧ c.length ≤ CHUNK_SIZE) ∧
    (∀ c ∈ (readChunks data).dropLast, c.length = CHUNK_SIZE) ∧
    (readChunks data = [] ↔ data = []) := by
  have hCpos : 0 < CHUNK_SIZE := by norm_num [CHUNK_SIZE, CHUNK_MB]
  have key : ∀ (n : Nat) (data : List Nat), data.length ≤ n →
      (∀ c ∈ readChunks data, c ≠ [] ∧ c.length ≤ CHUNK_SIZE) ∧
      (∀ c ∈ (readChunks data).dropLast, c.length = CHUNK_SIZE) ∧
      (readChunks data = [] ↔ data = []) := by
    intro n
    induction n with
    | zero =>
      intro data hlen
      have hd : data = [] := List.eq_nil_of_length_eq_zero (Nat.le_zero.mp hlen)
      subst hd
      rw [readChunks]
      simp
    | succ n ih =>
      intro data hlen
      by_cases hd : data = []
      · subst hd
        rw [readChunks]
        simp
      · have hdl : 0 < data.length := List.length_pos.mpr hd
        have hrec := ih (data.drop CHUNK_SIZE) (by simp [List.length_drop]; omega)
        have heq : readChunks data =
            data.take CHUNK_SIZE :: readChunks (data.drop CHUNK_SIZE) := by
          rw [readChunks]
          simp [hd]
        refine ⟨?_, ?_, ?_⟩
        · intro c hc
          rw [heq] at hc
          rcases List.mem_cons.mp hc with h | h
          · subst h
            constructor
            · intro hnil
              have h0 := congrArg List.length hnil
              rw [List.length_take, List.length_nil] at h0
              omega
            · simp [List.length_take]
          · exact hrec.1 c h
        · intro c hc
          rw [heq] at hc
          by_cases hrn : readChunks (data.drop CHUNK_SIZE) = []
          · rw [hrn] at hc
            simp at hc
          · rw [List.dropLast_cons_of_ne_nil hrn] at hc
            rcases List.mem_cons.mp hc with h | h
            · subst h
              have hdrop : data.drop CHUNK_SIZE ≠ [] :=
                fun hcon => hrn (hrec.2.2.mpr hcon)
              have hlt : CHUNK_SIZE < data.length := by
                by_contra hle
                push_neg at hle
                exact hdrop (List.drop_eq_nil_of_le hle)
              simp [List.length_take]
              omega
            · exact hrec.2.1 c h
        · rw [heq]
          simp [hd]
  intro data
  exact key data.length data le_rfl

/-- Witness for C7: a 1-byte file yields itself as the single chunk
(non-empty, within the cap), and an empty file yields no chunks. -/
theorem readChunks_spec_witness :
    (([7] : List Nat) ≠ [] ∧ ([7] : List Nat).length ≤ CHUNK_SIZE) ∧
    (readChunks [] = [] ↔ ([] : List Nat) = []) := by
  constructor
  · refine (readChunks_spec [7]).1 [7] ?_
    have h1 : readChunks [7] = [[7]] := by
      rw [readChunks]
      norm_num [CHUNK_SIZE, CHUNK_MB]
      rw [readChunks]
      simp
    rw [h1]
    exact List.mem_singleton.mpr rfl
  · exact (readChunks_spec []).2.2

/-! ### CLI error handling (C3) -/

/-- One step of the argument loop on a non-empty argument list, in the
order the source checks: `--runs` (with its value handling), then
unknown `--`-flags, then the filename slot. -/
theorem parseArgsLoop_cons (a : String) (rest : List String) (fn : Option String) (n : Nat) :
    parseArgsLoop (a :: rest) fn n =
      if a = "--runs" then
        (match rest with
         | [] => .error .runsMissingValue
         | v :: rest2 =>
           match parseUsize v with
           | none => .error .runsNotNumeric
           | some m => if m = 0 then .error .runsZero else parseArgsLoop rest2 fn m)
      else if strStartsWith a "--" then .error (.unknownOption a)
      else
        match fn with
        | some _ => .error .multipleFilenames
        | none => parseArgsLoop rest (some a) n := by
  cases rest <;> cases fn <;> rfl

/-- The argument loop only ever accepts a positive run count: the
default is 1 and `--runs 0` is rejected before being stored. -/
theorem parseArgsLoop_runs_pos :
    ∀ (k : Nat) (args : List String) (fn : Option String) (n : Nat) (f : String) (n' : Nat),
      args.length ≤ k → 1 ≤ n → parseArgsLoop args fn n = .ok (f, n') → 1 ≤ n' := by
  intro k
  induction k with
  | zero =>
    intro args fn n f n' hlen hn h
    have hargs : args = [] := List.eq_nil_of_length_eq_zero (Nat.le_zero.mp hlen)
    subst hargs
    cases fn with
    | none => simp [parseArgsLoop] at h
    | some g =>
      simp only [parseArgsLoop, Except.ok.injEq, Prod.mk.injEq] at h
      exact h.2 ▸ hn
  | succ k ih =>
    intro args fn n f n' hlen hn h
    cases args with
    | nil =>
      cases fn with
      | none => simp [parseArgsLoop] at h
      | some g =>
        simp only [parseArgsLoop, Except.ok.injEq, Prod.mk.injEq] at h
        exact h.2 ▸ hn
    | cons a rest =>
      rw [parseArgsLoop_cons] at h
      by_cases ha : a = "--runs"
      · rw [if_pos ha] at h
        cases rest with
        | nil => simp at h
        | cons v rest' =>
          cases hv : parseUsize v with
          | none => simp [hv] at h
          | some m =>
            simp only [hv] at h
            by_cases hm : m = 0
            · simp [hm] at h
            · rw [if_neg hm] at h
              have hlen' : rest'.length ≤ k := by
                simp only [List.length_cons] at hlen
                omega
              exact ih rest' fn m f n' hlen' (Nat.pos_of_ne_zero hm) h
      · rw [if_neg ha] at h
        by_cases hs : strStartsWith a "--"
        · simp [hs] at h
        · simp only [hs, Bool.false_eq_true, if_false] at h
          cases fn with
          | some g => simp at h
          | none =>
            have hlen' : rest.length ≤ k := by
              simp only [List.length_cons] at hlen
              omega
            exact ih rest (some a) n f n' hlen' hn h

/-- C3 (amended): every bad command line — missing filename, `--runs`
without a value, a non-numeric or zero `--runs` value, a second
filename, or an unknown `--`-flag — makes the program exit with code 1
and perform no benchmarking.  The usage line is printed on all of these
paths except the non-numeric and zero `--runs` values, which print
only an error line (`UsageError.printsUsage` records which).  An
invalid (unopenable) filename is not a usage error at all: the
argument loop accepts it, and the `fs::metadata(...).expect(...)` call
then panics — the process aborts with exit code 101 and no usage
message, and still performs no benchmarking.  A run count of 0 can
never reach the benchmarking phase. -/
theorem cli_errors_exit_without_benchmarking :
    (∀ fn n, parseArgsLoop ["--runs"] fn n = .error .runsMissingValue) ∧
    (∀ v rest fn n, parseUsize v = none →
      parseArgsLoop ("--runs" :: v :: rest) fn n = .error .runsNotNumeric) ∧
    (∀ v rest fn n, parseUsize v = some 0 →
      parseArgsLoop ("--runs" :: v :: rest) fn n = .error .runsZero) ∧
    (∀ a rest f n, strStartsWith a "--" = false →
      parseArgsLoop (a :: rest) (some f) n = .error .multipleFilenames) ∧
    (∀ a rest fn n, strStartsWith a "--" = true → a ≠ "--runs" →
      parseArgsLoop (a :: rest) fn n = .error (.unknownOption a)) ∧
    (∀ n, parseArgsLoop [] none n = .error .missingFilename) ∧
    (∀ args e, parseArgs args = .error e →
      runProgram args = .usageExit 1 e.printsUsage) ∧
    (∀ fs args e, parseArgs args = .error e →
      runMain fs args = .usageExit 1 e.printsUsage) ∧
    (∀ fs args f n err, parseArgs args = .ok (f, n) → fs f = .error err →
      runMain fs args = .panicked) ∧
    (∀ args f n, parseArgs args = .ok (f, n) → 1 ≤ n) := by
  refine ⟨?_, ?_, ?_, ?_, ?_, ?_, ?_, ?_, ?_, ?_⟩
  · intro fn n
    cases fn <;> rfl
  · intro v rest fn n h
    rw [parseArgsLoop_cons]
    simp [h]
  · intro v rest fn n h
    rw [parseArgsLoop_cons]
    simp [h]
  · intro a rest f n h
    have ha : a ≠ "--runs" := by
      intro hcontra
      rw [hcontra] at h
      exact absurd h (by decide)
    rw [parseArgsLoop_cons]
    simp [ha, h]
  · intro a rest fn n hs ha
    rw [parseArgsLoop_cons]
    simp [ha, hs]
  · intro n
    rfl
  · intro args e h
    simp [runProgram, h]
  · intro fs args e h
    simp [runMain, h]
  · intro fs args f n err hp hf
    simp [runMain, hp, hf]
  · intro args f n h
    exact parseArgsLoop_runs_pos args.length args none 1 f n le_rfl le_rfl h

/-- Witness for C3 (amended): a non-numeric `--runs` value is
rejected; an unknown flag exits with code 1 after the usage line; and
an unopenable filename panics instead of exiting with a usage
message. -/
theorem cli_errors_exit_without_benchmarking_witness :
    parseArgsLoop ["--runs", "abc"] none 1 = .error .runsNotNumeric ∧
    runProgram ["--weird"] = .usageExit 1 true ∧
    runMain (fun _ => .error "No such file or directory") ["data.bin"] = .panicked := by
  refine ⟨?_, ?_, ?_⟩
  · exact cli_errors_exit_without_benchmarking.2.1 "abc" [] none 1 (by decide)
  · exact cli_errors_exit_without_benchmarking.2.2.2.2.2.2.1
      ["--weird"] (.unknownOption "--weird") rfl
  · exact cli_errors_exit_without_benchmarking.2.2.2.2.2.2.2.2.1
      (fun _ => .error "No such file or directory") ["data.bin"] "data.bin" 1
      "No such file or directory" rfl rfl

/-- Counterexample to C3 as stated, at two of its claimed error
categories.  First, `--runs 0` does exit with code 1 and benchmarks
nothing, but the only output is the line
`Error: --runs value must be at least 1` — the usage message is NOT
printed on this path (nor on the non-numeric `--runs` path).  Second,
an invalid (unopenable) filename does not exit with code 1 after a
usage message at all: the argument loop accepts it and
`fs::metadata(...).expect(...)` panics, aborting the process with exit
code 101 and no usage output. -/
theorem cli_runs_zero_no_usage_counterexample :
    (runProgram ["--runs", "0", "input.bin"] = .usageExit 1 false ∧
     runProgram ["--runs", "0", "input.bin"] ≠ .usageExit 1 true) ∧
    (runMain (fun _ => .error "No such file or directory") ["input.bin"] = .panicked ∧
     runMain (fun _ => .error "No such file or directory") ["input.bin"] ≠
       .usageExit 1 true ∧
     runMain (fun _ => .error "No such file or directory") ["input.bin"] ≠
       .usageExit 1 false) :=
  ⟨⟨by decide, by decide⟩, ⟨rfl, by decide, by decide⟩⟩

/-! ### Codec failure behaviour (C1) -/

/-- An input above the lz4 cap makes `benchmark_lz4` panic in the
warm-up compress call: the error is `.unwrap()`ed, not recovered. -/
theorem benchmark_lz4_oversized (lib : LZ4Lib) (dataLen os N : Nat)
    (ct dt : Nat → Duration) (h : LZ4_MAX_INPUT < dataLen) :
    benchmark_lz4 lib dataLen os N ct dt = .error .panicked := by
  simp only [benchmark_lz4, lz4_compress_to_buffer, if_pos h]
  rfl

/-- C1 (amended): if the lz4 compress call fails — e.g. the chunk
exceeds the 2^31−1 byte input cap — `benchmark_lz4` panics (the error
is `.unwrap()`ed), so the whole chunk loop aborts: the codec is not
marked skipped, no warning is printed by the benchmark code, and the
codecs after lz4 in the per-chunk order are never benchmarked (the
process is dead before the table is printed).  The only graceful path
in the program is the empty-results warning in `print_results`. -/
theorem lz4_failure_panics (gz : GzLib) (lib : LZ4Lib) (zs : ZstdLib)
    (chunkLen N : Nat) (ct dt : Nat → Duration) (h : LZ4_MAX_INPUT < chunkLen) :
    benchmark_lz4 lib chunkLen chunkLen N ct dt = .error .panicked ∧
    processChunk gz lib zs chunkLen N ct dt = .error .panicked := by
  have hb := benchmark_lz4_oversized lib chunkLen chunkLen N ct dt h
  refine ⟨hb, ?_⟩
  simp only [processChunk]
  cases hf : benchmark_flate2 gz chunkLen N ct dt with
  | error p => cases p; simp [hf, pbind_error]
  | ok fr => simp [hf, pbind_ok, hb, pbind_error]

/-- Witness for C1 (amended): a 2^31-byte chunk is over the cap and
the chunk loop dies with a panic. -/
theorem lz4_failure_panics_witness :
    benchmark_lz4 ⟨fun n => n, fun _ _ _ => .ok 0⟩ (2 ^ 31) (2 ^ 31) 1
      (fun _ => ⟨0, 0⟩) (fun _ => ⟨0, 0⟩) = .error .panicked ∧
    processChunk ⟨fun n => .ok n, fun _ => .ok 0⟩ ⟨fun n => n, fun _ _ _ => .ok 0⟩
      ⟨fun n => n + 64, fun _ n _ => .ok n, fun _ _ => .ok 0⟩
      (2 ^ 31) 1 (fun _ => ⟨0, 0⟩) (fun _ => ⟨0, 0⟩) = .error .panicked :=
  lz4_failure_panics ⟨fun n => .ok n, fun _ => .ok 0⟩ ⟨fun n => n, fun _ _ _ => .ok 0⟩
    ⟨fun n => n + 64, fun _ n _ => .ok n, fun _ _ => .ok 0⟩
    (2 ^ 31) 1 (fun _ => ⟨0, 0⟩) (fun _ => ⟨0, 0⟩) (by decide)

/-- Counterexample to C1 as stated: with every other codec healthy and
a 2^31-byte chunk (one byte over the lz4 cap), the per-chunk loop does
not produce any results — it panics.  The zstd codec after lz4 is never
benchmarked and no SKIPPED row can be printed, contrary to the claimed
skip-and-continue behaviour. -/
theorem lz4_skip_counterexample :
    LZ4_MAX_INPUT < 2 ^ 31 ∧
    benchmark_lz4 ⟨fun n => n, fun _ _ _ => .ok 0⟩ (2 ^ 31) (2 ^ 31) 1
      (fun _ => ⟨0, 0⟩) (fun _ => ⟨0, 0⟩) = .error .panicked ∧
    (processChunk ⟨fun n => .ok n, fun _ => .ok 0⟩ ⟨fun n => n, fun _ _ _ => .ok 0⟩
      ⟨fun n => n + 64, fun _ n _ => .ok n, fun _ _ => .ok 0⟩
      (2 ^ 31) 1 (fun _ => ⟨0, 0⟩) (fun _ => ⟨0, 0⟩)).isOk = false := by
  refine ⟨by decide, rfl, rfl⟩

/-! ### Decompressed-length checking (C2) -/

/-- The flate2 run loop never looks at the value of the decompressed
length: two gzip oracles that agree on compression and on decoder
success/failure (but may disagree on the decoded length) produce
identical benchmark results. -/
theorem flate2Runs_congr (g1 g2 : GzLib) (dataLen : Nat) (ct dt : Nat → Duration)
    (hc : g1.compressLen = g2.compressLen)
    (hd : ∀ m, (g1.decompressLen m).isOk = (g2.decompressLen m).isOk) :
    ∀ r run, flate2Runs g1 dataLen ct dt run r = flate2Runs g2 dataLen ct dt run r := by
  intro r
  induction r with
  | zero => intro run; rfl
  | succ r ih =>
    intro run
    simp only [flate2Runs, hc]
    cases hcl : g2.compressLen dataLen with
    | error e => simp [unwrapE, pbind_error]
    | ok clen =>
      simp only [unwrapE, pbind_ok]
      have hdm := hd clen
      cases he1 : g1.decompressLen clen with
      | error e1 =>
        cases he2 : g2.decompressLen clen with
        | error e2 => simp [unwrapE, pbind_error]
        | ok v2 => rw [he1, he2] at hdm; simp [Except.isOk, Except.toBool] at hdm
      | ok v1 =>
        cases he2 : g2.decompressLen clen with
        | error e2 => rw [he1, he2] at hdm; simp [Except.isOk, Except.toBool] at hdm
        | ok v2 => simp [unwrapE, pbind_ok, ih (run + 1)]

/-- The zstd run loop likewise never looks at the decompressed
length. -/
theorem zstdRuns_congr (z1 z2 : ZstdLib) (level : Int) (dataLen os max_len : Nat)
    (ct dt : Nat → Duration)
    (hc : z1.compressLen = z2.compressLen)
    (hd : ∀ m c, (z1.decompressLen m c).isOk = (z2.decompressLen m c).isOk) :
    ∀ r run, zstdRuns z1 level dataLen os max_len ct dt run r =
      zstdRuns z2 level dataLen os max_len ct dt run r := by
  intro r
  induction r with
  | zero => intro run; rfl
  | succ r ih =>
    intro run
    simp only [zstdRuns, hc]
    cases hcl : z2.compressLen level dataLen max_len with
    | error e => simp [unwrapE, pbind_error]
    | ok clen =>
      simp only [unwrapE, pbind_ok]
      have hdm := hd clen os
      cases he1 : z1.decompressLen clen os with
      | error e1 =>
        cases he2 : z2.decompressLen clen os with
        | error e2 => simp [unwrapE, pbind_error]
        | ok v2 => rw [he1, he2] at hdm; simp [Except.isOk, Except.toBool] at hdm
      | ok v1 =>
        cases he2 : z2.decompressLen clen os with
        | error e2 => rw [he1, he2] at hdm; simp [Except.isOk, Except.toBool] at hdm
        | ok v2 => simp [unwrapE, pbind_ok, ih (run + 1)]

/-- C2 (amended): the benchmark functions record the decompressed
output length and discard it without ever comparing it to the original
input size.  A length mismatch is silently ignored: the entire
behaviour of `benchmark_flate2` and `benchmark_zstd` — success,
failure, and every recorded sample — is unchanged under any change of
the decompressed lengths their decoders report (decoder success kept
fixed).  Only `benchmark_lz4` hands the expected size to the library
itself. -/
theorem decompressed_length_never_checked :
    (∀ (g1 g2 : GzLib) dataLen N ct dt,
      g1.compressLen = g2.compressLen →
      (∀ m, (g1.decompressLen m).isOk = (g2.decompressLen m).isOk) →
      benchmark_flate2 g1 dataLen N ct dt = benchmark_flate2 g2 dataLen N ct dt) ∧
    (∀ (z1 z2 : ZstdLib) level dataLen os N ct dt,
      z1.compress_bound = z2.compress_bound →
      z1.compressLen = z2.compressLen →
      (∀ m c, (z1.decompressLen m c).isOk = (z2.decompressLen m c).isOk) →
      benchmark_zstd z1 level dataLen os N ct dt =
        benchmark_zstd z2 level dataLen os N ct dt) := by
  constructor
  · intro g1 g2 dataLen N ct dt hc hd
    simp only [benchmark_flate2, hc]
    cases hcl : g2.compressLen dataLen with
    | error e => simp [unwrapE, pbind_error]
    | ok clen =>
      simp only [unwrapE, pbind_ok]
      have hdm := hd clen
      cases he1 : g1.decompressLen clen with
      | error e1 =>
        cases he2 : g2.decompressLen clen with
        | error e2 => simp [unwrapE, pbind_error]
        | ok v2 => rw [he1, he2] at hdm; simp [Except.isOk, Except.toBool] at hdm
      | ok v1 =>
        cases he2 : g2.decompressLen clen with
        | error e2 => rw [he1, he2] at hdm; simp [Except.isOk, Except.toBool] at hdm
        | ok v2 =>
          simp only [unwrapE, pbind_ok]
          exact flate2Runs_congr g1 g2 dataLen ct dt hc hd N 0
  · intro z1 z2 level dataLen os N ct dt hb hc hd
    simp only [benchmark_zstd, hb, hc]
    cases hcl : z2.compressLen level dataLen (z2.compress_bound dataLen) with
    | error e => simp [unwrapE, pbind_error]
    | ok clen =>
      simp only [unwrapE, pbind_ok]
      have hdm := hd clen os
      cases he1 : z1.decompressLen clen os with
      | error e1 =>
        cases he2 : z2.decompressLen clen os with
        | error e2 => simp [unwrapE, pbind_error]
        | ok v2 => rw [he1, he2] at hdm; simp [Except.isOk, Except.toBool] at hdm
      | ok v1 =>
        cases he2 : z2.decompressLen clen os with
        | error e2 => rw [he1, he2] at hdm; simp [Except.isOk, Except.toBool] at hdm
        | ok v2 =>
          simp only [unwrapE, pbind_ok]
          rw [zstdRuns_congr z1 z2 level dataLen os (z2.compress_bound dataLen) ct dt hc hd N 0]

/-- Witness for C2 (amended): two decoders reporting lengths 999 and 3
for the same 3-byte original give identical benchmark results. -/
theorem decompressed_length_never_checked_witness :
    benchmark_flate2 ⟨fun _ => .ok 10, fun _ => .ok 999⟩ 3 1
      (fun _ => ⟨0, 0⟩) (fun _ => ⟨0, 0⟩) =
    benchmark_flate2 ⟨fun _ => .ok 10, fun _ => .ok 3⟩ 3 1
      (fun _ => ⟨0, 0⟩) (fun _ => ⟨0, 0⟩) :=
  decompressed_length_never_checked.1
    ⟨fun _ => .ok 10, fun _ => .ok 999⟩ ⟨fun _ => .ok 10, fun _ => .ok 3⟩
    3 1 (fun _ => ⟨0, 0⟩) (fun _ => ⟨0, 0⟩) rfl (fun _ => rfl)

/-- Counterexample to C2 as stated: a gzip decoder that reports writing
999 bytes for the 3-byte original (a length mismatch) still yields a
fully successful benchmark run with its sample recorded — no failure is
reported or raised anywhere. -/
theorem length_mismatch_ignored_counterexample :
    (999 : Nat) ≠ 3 ∧
    benchmark_flate2 ⟨fun _ => .ok 10, fun _ => .ok 999⟩ 3 1
      (fun _ => ⟨0, 0⟩) (fun _ => ⟨0, 0⟩) =
      .ok ⟨[3], [10], [⟨0, 0⟩], [⟨0, 0⟩]⟩ :=
  ⟨by decide, rfl⟩

end RustCompression
